import Mathlib

/-!
Shallow embedding of the Celtic-knot lattice/tile core of the `conbhuide`
repository (files `edge.rs`, `celtic.rs`, `life.rs`).

Conventions:
* `u16` values are modelled as `ℕ`; where the source performs `u16`
  arithmetic that can wrap, the result is reduced `% 65536`.
* `i16` values are modelled as `ℤ`; the `u16 as i16` cast is `i16ofU16`
  (wrapping), the `f32 as u16` cast is `toU16` (saturating), and `i16`
  addition is `addI16` (wrapping).
* `f32` screen coordinates are modelled as `ℚ`; `f32::round` (round half
  away from zero) is `roundQ`.
-/

namespace Conbhuide

/-- A lattice node, stored in the edge set as a pair of `i16` coordinates. -/
abbrev Node := ℤ × ℤ

/-- An entry of `TileMatrix.edges`: an ordered pair of nodes. -/
abbrev KnotEdge := Node × Node

/-- `Cut` from `celtic.rs`. -/
inductive Cut
  | Open
  | Horizontal
  | Vertical
  | Cross
  deriving DecidableEq, Fintype, Repr

/-- `Offset` from `celtic.rs`. -/
inductive Offset
  | Even
  | Odd
  deriving DecidableEq, Fintype, Repr

/-- `Tile` from `celtic.rs`. -/
structure Tile where
  bottom_cut : Cut
  top_cut : Cut
  row_offset : Offset
  col_offset : Offset
  deriving DecidableEq, Repr

/-- The five glyph keys of `TILE_LOCS` in `celtic.rs`. -/
inductive Glyph
  | corner
  | vertical_line
  | straight_cross
  | curved_cross
  | curved_cross_under
  deriving DecidableEq, Fintype, Repr

/-- The rotation angles used by `draw_expr_for_tile` (`0.0`, `PI/2`, `PI`,
`PI*1.5` radians), in degrees. -/
inductive Rot
  | deg0
  | deg90
  | deg180
  | deg270
  deriving DecidableEq, Fintype, Repr

/-- The sprite-atlas coordinates of `TILE_LOCS` in `celtic.rs`. -/
def tileLocs : Glyph → ℕ × ℕ
  | .corner => (0, 0)
  | .vertical_line => (7, 1)
  | .straight_cross => (0, 2)
  | .curved_cross => (6, 8)
  | .curved_cross_under => (8, 0)

/-- Rust `f32::round`: round to nearest, halves away from zero. -/
def roundQ (q : ℚ) : ℤ := if 0 ≤ q then ⌊q + 1 / 2⌋ else ⌈q - 1 / 2⌉

/-- Rust saturating cast from a (finite) float to `u16`. -/
def toU16 (z : ℤ) : ℕ := (min 65535 (max 0 z)).toNat

/-- Rust `u16 as i16` cast (wrapping reinterpretation). -/
def i16ofU16 (n : ℕ) : ℤ := if n < 32768 then (n : ℤ) else (n : ℤ) - 65536

/-- Rust `i16` addition with release-mode wrapping semantics. -/
def addI16 (a b : ℤ) : ℤ := (a + b + 32768) % 65536 - 32768

/-- `TileMatrix::loc_for_node` from `edge.rs`: screen position of a node,
with the quincunx offset on odd rows (`u16` pixel arithmetic, then cast to
`f32` for the returned `Vec2`). -/
def locForNode (ts x y : ℕ) : ℚ × ℚ :=
  if y % 2 = 0 then
    (((x * ts * 2) % 65536 : ℕ), ((y * ts) % 65536 : ℕ))
  else
    (((ts + x * ts * 2) % 65536 : ℕ), ((y * ts) % 65536 : ℕ))

/-- `TileMatrix::loc_for_tile` from `edge.rs`. -/
def locForTile (ts x y : ℕ) : ℚ × ℚ :=
  (((x * ts) % 65536 : ℕ), ((y * ts) % 65536 : ℕ))

/-- `TileMatrix::tile_pos_for_click` from `edge.rs`. -/
def tilePosForClick (ts : ℕ) (pos : ℚ × ℚ) : ℕ × ℕ :=
  (toU16 ⌊pos.1⌋ / ts, toU16 ⌊pos.2⌋ / ts)

/-- `y_ft` in `TileMatrix::nearest_edge_to_click`. -/
def clickYFt (ts : ℕ) (pos : ℚ × ℚ) : ℚ := pos.2 / (ts : ℚ)

/-- `y_1` in `TileMatrix::nearest_edge_to_click`. -/
def clickY1 (ts : ℕ) (pos : ℚ × ℚ) : ℕ := toU16 (roundQ (clickYFt ts pos))

/-- `x_ft` in `TileMatrix::nearest_edge_to_click` (the divisor is the `u16`
product `tile_size*2`, which wraps). -/
def clickXFt (ts : ℕ) (pos : ℚ × ℚ) : ℚ :=
  if clickY1 ts pos % 2 = 0 then
    pos.1 / ((ts * 2 % 65536 : ℕ) : ℚ)
  else
    (pos.1 - (ts : ℚ)) / ((ts * 2 % 65536 : ℕ) : ℚ)

/-- `x_1` in `TileMatrix::nearest_edge_to_click`. -/
def clickX1 (ts : ℕ) (pos : ℚ × ℚ) : ℕ := toU16 (roundQ (clickXFt ts pos))

/-- `x_dist` in `TileMatrix::nearest_edge_to_click`. -/
def clickXDist (ts : ℕ) (pos : ℚ × ℚ) : ℚ := clickXFt ts pos - (clickX1 ts pos : ℚ)

/-- `y_dist` in `TileMatrix::nearest_edge_to_click`. -/
def clickYDist (ts : ℕ) (pos : ℚ × ℚ) : ℚ := clickYFt ts pos - (clickY1 ts pos : ℚ)

/-- The second node `(x_2, y_2)` computed by
`TileMatrix::nearest_edge_to_click`: the branch `x_dist >= y_dist` steps the
column by the sign of `x_dist`, the other branch steps the row by two in the
sign of `y_dist`; both clamp the `i16` result at 0 before casting back. -/
def clickSecondNode (ts : ℕ) (pos : ℚ × ℚ) : ℕ × ℕ :=
  if clickYDist ts pos ≤ clickXDist ts pos then
    ((max 0 (addI16 (i16ofU16 (clickX1 ts pos)) (if 0 ≤ clickXDist ts pos then 1 else -1))).toNat,
      clickY1 ts pos)
  else
    (clickX1 ts pos,
      (max 0 (addI16 (i16ofU16 (clickY1 ts pos)) (if 0 ≤ clickYDist ts pos then 2 else -2))).toNat)

/-- `TileMatrix::nearest_edge_to_click` from `edge.rs`. -/
def nearestEdgeToClick (ts : ℕ) (pos : ℚ × ℚ) : (ℕ × ℕ) × (ℕ × ℕ) :=
  ((clickX1 ts pos, clickY1 ts pos), clickSecondNode ts pos)

/-- The toggle at the heart of `TileMatrix::flip_edge`: if the pair (in the
derived order) is present, remove it and its reverse; otherwise insert both. -/
def flipEdgePair (S : Finset KnotEdge) (p : KnotEdge) : Finset KnotEdge :=
  let pRev : KnotEdge := (p.2, p.1)
  if p ∈ S then (S.erase p).erase pRev else insert pRev (insert p S)

/-- The `u16 → i16` cast applied to each coordinate of a node in
`TileMatrix::flip_edge`. -/
def castNode (p : ℕ × ℕ) : Node := (i16ofU16 p.1, i16ofU16 p.2)

/-- `TileMatrix::flip_edge` from `edge.rs`, acting on the edge set. -/
def flipEdge (ts : ℕ) (S : Finset KnotEdge) (pos : ℚ × ℚ) : Finset KnotEdge :=
  let np := nearestEdgeToClick ts pos
  flipEdgePair S (castNode np.1, castNode np.2)

/-- The final `match (vert_exists, hori_exists)` of `TileMatrix::cut_for_tile`. -/
def cutReduce : Bool × Bool → Cut
  | (true, true) => .Cross
  | (true, false) => .Vertical
  | (false, true) => .Horizontal
  | (false, false) => .Open

/-- `TileMatrix::cut_for_tile` from `edge.rs`. `n_x` is
`(x as f32 / 2.0).round() as i16` (so `⌈x/2⌉`, saturated into `i16`), `n_y`
is `y as i16`, and the `±1`/`±2` offsets applied to them are `i16` additions
with release-mode wrapping semantics (`addI16`). -/
def cutForTile (edges : Finset KnotEdge) (x y : ℕ) (ro co : Offset) (is_bottom : Bool) : Cut :=
  let nx : ℤ := min 32767 (((x + 1) / 2 : ℕ) : ℤ)
  let ny : ℤ := i16ofU16 y
  cutReduce (match is_bottom, ro, co with
    | true, .Even, .Even =>
        (decide (((nx, ny), (nx, addI16 ny 2)) ∈ edges),
         decide (((addI16 nx (-1), addI16 ny 1), (nx, addI16 ny 1)) ∈ edges))
    | true, .Odd, .Even =>
        (decide (((nx, ny), (nx, addI16 ny 2)) ∈ edges),
         decide (((nx, addI16 ny 1), (addI16 nx 1, addI16 ny 1)) ∈ edges))
    | true, .Odd, .Odd =>
        (decide (((addI16 nx (-1), ny), (addI16 nx (-1), addI16 ny 2)) ∈ edges),
         decide (((addI16 nx (-1), addI16 ny 1), (nx, addI16 ny 1)) ∈ edges))
    | true, .Even, .Odd =>
        (decide (((nx, ny), (nx, addI16 ny 2)) ∈ edges),
         decide (((addI16 nx (-1), addI16 ny 1), (nx, addI16 ny 1)) ∈ edges))
    | false, .Even, .Even =>
        (decide (((nx, addI16 ny (-1)), (nx, addI16 ny 1)) ∈ edges),
         decide (((nx, ny), (addI16 nx 1, ny)) ∈ edges))
    | false, .Odd, .Odd =>
        (decide (((nx, addI16 ny (-1)), (nx, addI16 ny 1)) ∈ edges),
         decide (((addI16 nx (-1), ny), (nx, ny)) ∈ edges))
    | false, .Even, .Odd =>
        (decide (((addI16 nx (-1), addI16 ny (-1)), (addI16 nx (-1), addI16 ny 1)) ∈ edges),
         decide (((addI16 nx (-1), ny), (nx, ny)) ∈ edges))
    | false, .Odd, .Even =>
        (decide (((nx, addI16 ny (-1)), (nx, addI16 ny 1)) ∈ edges),
         decide (((addI16 nx (-1), ny), (nx, ny)) ∈ edges)))

/-- `TileMatrix::tile_for_pos` from `edge.rs`. -/
def tileForPos (edges : Finset KnotEdge) (x y : ℕ) : Tile :=
  let row_offset : Offset := if y % 2 = 1 then .Odd else .Even
  let col_offset : Offset := if x % 2 = 1 then .Odd else .Even
  { bottom_cut := cutForTile edges x y row_offset col_offset true
    top_cut := cutForTile edges x y row_offset col_offset false
    row_offset := row_offset
    col_offset := col_offset }

/-- `draw_expr_for_tile` from `celtic.rs`: the 36-way resolver. `some` carries
the `(glyph, rotation, flip_x)` triple handed to `draw_tile`; `none` is the
final wildcard arm, which paints the black fallback rectangle. Arms are in
source order. -/
def drawExprForTile (t : Tile) : Option (Glyph × Rot × Bool) :=
  match t.bottom_cut, t.top_cut, t.row_offset, t.col_offset with
  | .Open, .Open, .Even, .Even => some (.straight_cross, .deg0, false)
  | .Open, .Open, .Even, .Odd => some (.straight_cross, .deg90, false)
  | .Open, .Open, .Odd, .Odd => some (.straight_cross, .deg180, false)
  | .Open, .Open, .Odd, .Even => some (.straight_cross, .deg270, false)
  | .Horizontal, .Vertical, .Odd, .Odd => some (.corner, .deg180, false)
  | .Horizontal, .Vertical, .Even, .Even => some (.corner, .deg180, false)
  | .Horizontal, .Vertical, .Odd, .Even => some (.corner, .deg270, false)
  | .Horizontal, .Vertical, .Even, .Odd => some (.corner, .deg270, false)
  | .Vertical, .Horizontal, .Odd, .Odd => some (.corner, .deg0, false)
  | .Vertical, .Horizontal, .Even, .Even => some (.corner, .deg0, false)
  | .Vertical, .Horizontal, .Odd, .Even => some (.corner, .deg90, false)
  | .Vertical, .Horizontal, .Even, .Odd => some (.corner, .deg90, false)
  | .Horizontal, .Horizontal, _, _ => some (.vertical_line, .deg90, false)
  | .Vertical, .Vertical, _, _ => some (.vertical_line, .deg0, false)
  | .Vertical, .Open, .Odd, .Odd => some (.curved_cross, .deg180, false)
  | .Vertical, .Open, .Even, .Even => some (.curved_cross_under, .deg0, false)
  | .Vertical, .Open, .Odd, .Even => some (.curved_cross_under, .deg0, true)
  | .Vertical, .Open, .Even, .Odd => some (.curved_cross, .deg180, true)
  | .Open, .Vertical, .Odd, .Odd => some (.curved_cross_under, .deg180, false)
  | .Open, .Vertical, .Odd, .Even => some (.curved_cross, .deg0, true)
  | .Open, .Vertical, .Even, .Even => some (.curved_cross, .deg0, false)
  | .Open, .Vertical, .Even, .Odd => some (.curved_cross_under, .deg180, true)
  | .Horizontal, .Open, .Odd, .Odd => some (.curved_cross, .deg270, true)
  | .Horizontal, .Open, .Odd, .Even => some (.curved_cross_under, .deg270, false)
  | .Horizontal, .Open, .Even, .Even => some (.curved_cross_under, .deg90, true)
  | .Horizontal, .Open, .Even, .Odd => some (.curved_cross, .deg90, false)
  | .Open, .Horizontal, .Odd, .Odd => some (.curved_cross_under, .deg270, true)
  | .Open, .Horizontal, .Odd, .Even => some (.curved_cross, .deg270, false)
  | .Open, .Horizontal, .Even, .Even => some (.curved_cross, .deg90, true)
  | .Open, .Horizontal, .Even, .Odd => some (.curved_cross_under, .deg90, false)
  | _, _, _, _ => none

/-- `CellMatrix` from `life.rs` (fields relevant to the automaton). -/
structure CellMatrix where
  width : ℕ
  height : ℕ
  cell_size : ℕ
  cells : List Bool
  deriving DecidableEq, Repr

/-- `CellMatrix::cell_is_alive` composed with `CellMatrix::ind_for_pos`. -/
def CellMatrix.cellIsAlive (m : CellMatrix) (x y : ℕ) : Bool :=
  m.cells.getD (y * m.width + x) false

/-- The `(i, j)` neighbor offsets visited by the loops in `CellMatrix::step`,
minus the skipped `(0, 0)`. -/
def neighborOffsets : List (ℤ × ℤ) :=
  [(-1, -1), (0, -1), (1, -1), (-1, 0), (1, 0), (-1, 1), (0, 1), (1, 1)]

/-- The live-neighbor count computed inside `CellMatrix::step`, with the
bounds-clipping `continue`. -/
def CellMatrix.nNeighbors (m : CellMatrix) (x y : ℤ) : ℕ :=
  (neighborOffsets.filter fun d =>
    decide (0 ≤ x + d.1) && decide (x + d.1 < (m.width : ℤ)) &&
    decide (0 ≤ y + d.2) && decide (y + d.2 < (m.height : ℤ)) &&
    m.cellIsAlive (x + d.1).toNat (y + d.2).toNat).length

/-- The rule `match` at the end of `CellMatrix::step`, arms in source order. -/
def stepRule (alive : Bool) (n : ℕ) : Bool :=
  if alive then
    if n < 2 then false
    else if n = 2 then true
    else if n = 3 then true
    else if 3 < n then false
    else alive
  else if n = 3 then true else alive

/-- `CellMatrix::step` from `life.rs`: double-buffered evolution; the buffer
entry at index `y * width + x` is rewritten for every `x < width`,
`y < height`, reading only the old generation. -/
def CellMatrix.step (m : CellMatrix) : CellMatrix :=
  { m with
    cells := (List.range m.cells.length).map fun k =>
      if k < m.width * m.height then
        stepRule (m.cellIsAlive (k % m.width) (k / m.width))
          (m.nNeighbors (k % m.width) (k / m.width))
      else m.cells.getD k false }

/-- The horizontal neighbor in the spec's sense: same row, adjacent column,
stepped in the direction of the sign of the x fractional remainder and
clamped at column 0 (`ℕ` subtraction clamps). -/
def specHorizontalNeighbor (ts : ℕ) (pos : ℚ × ℚ) : ℕ × ℕ :=
  (if 0 ≤ clickXDist ts pos then clickX1 ts pos + 1 else clickX1 ts pos - 1,
    clickY1 ts pos)

/-- The vertical neighbor in the spec's sense: same reduced column, two rows
apart in the direction of the sign of the y fractional remainder, clamped at
row 0 (`ℕ` subtraction clamps). -/
def specVerticalNeighbor (ts : ℕ) (pos : ℚ × ℚ) : ℕ × ℕ :=
  (clickX1 ts pos,
    if 0 ≤ clickYDist ts pos then clickY1 ts pos + 2 else clickY1 ts pos - 2)

/-- The vertical bounding-connection candidate queried by `cut_for_tile` for
each entry of its 8-way table, with the same wrapping `i16` coordinate
arithmetic as the source. -/
def vertCandidate (x y : ℕ) (ro co : Offset) (is_bottom : Bool) : KnotEdge :=
  let nx : ℤ := min 32767 (((x + 1) / 2 : ℕ) : ℤ)
  let ny : ℤ := i16ofU16 y
  match is_bottom, ro, co with
  | true, .Even, .Even => ((nx, ny), (nx, addI16 ny 2))
  | true, .Odd, .Even => ((nx, ny), (nx, addI16 ny 2))
  | true, .Odd, .Odd => ((addI16 nx (-1), ny), (addI16 nx (-1), addI16 ny 2))
  | true, .Even, .Odd => ((nx, ny), (nx, addI16 ny 2))
  | false, .Even, .Even => ((nx, addI16 ny (-1)), (nx, addI16 ny 1))
  | false, .Odd, .Odd => ((nx, addI16 ny (-1)), (nx, addI16 ny 1))
  | false, .Even, .Odd => ((addI16 nx (-1), addI16 ny (-1)), (addI16 nx (-1), addI16 ny 1))
  | false, .Odd, .Even => ((nx, addI16 ny (-1)), (nx, addI16 ny 1))

/-- The horizontal bounding-connection candidate queried by `cut_for_tile`
for each entry of its 8-way table, with the same wrapping `i16` coordinate
arithmetic as the source. -/
def horiCandidate (x y : ℕ) (ro co : Offset) (is_bottom : Bool) : KnotEdge :=
  let nx : ℤ := min 32767 (((x + 1) / 2 : ℕ) : ℤ)
  let ny : ℤ := i16ofU16 y
  match is_bottom, ro, co with
  | true, .Even, .Even => ((addI16 nx (-1), addI16 ny 1), (nx, addI16 ny 1))
  | true, .Odd, .Even => ((nx, addI16 ny 1), (addI16 nx 1, addI16 ny 1))
  | true, .Odd, .Odd => ((addI16 nx (-1), addI16 ny 1), (nx, addI16 ny 1))
  | true, .Even, .Odd => ((addI16 nx (-1), addI16 ny 1), (nx, addI16 ny 1))
  | false, .Even, .Even => ((nx, ny), (addI16 nx 1, ny))
  | false, .Odd, .Odd => ((addI16 nx (-1), ny), (nx, ny))
  | false, .Even, .Odd => ((addI16 nx (-1), ny), (nx, ny))
  | false, .Odd, .Even => ((addI16 nx (-1), ny), (nx, ny))

/-- The reduction described by the spec: both candidates present gives
`Cross`, only the vertical one `Vertical`, only the horizontal one
`Horizontal`, neither `Open`. -/
def cutOfPresence (v h : Bool) : Cut :=
  if v && h then .Cross else if v then .Vertical else if h then .Horizontal else .Open

/-- Order-independence of the stored edge set: every recorded pair is
recorded with its reverse. -/
def EdgeSym (S : Finset KnotEdge) : Prop :=
  ∀ p ∈ S, ((p.2, p.1) : KnotEdge) ∈ S

instance (S : Finset KnotEdge) : Decidable (EdgeSym S) :=
  inferInstanceAs (Decidable (∀ p ∈ S, ((p.2, p.1) : KnotEdge) ∈ S))

/-- Edge sets reachable from the initial empty set by `flip_edge` clicks. -/
inductive Reachable (ts : ℕ) : Finset KnotEdge → Prop
  | init : Reachable ts ∅
  | flip (S : Finset KnotEdge) (pos : ℚ × ℚ) :
      Reachable ts S → Reachable ts (flipEdge ts S pos)

/-- The edge set produced by two `flip_edge` clicks at tile size 16: it makes
both bounding connections of the bottom cut of tile `(0, 1)` present. -/
def demoEdges : Finset KnotEdge :=
  flipEdgePair (flipEdgePair ∅ ((0, 1), (0, 3))) ((0, 2), (1, 2))

/-- An edge set recording only one ordering of a connection. -/
def asymEdges : Finset KnotEdge := {((1, 0), (0, 0))}

/-- A symmetric edge set recording one connection in both orderings. -/
def symDemoEdges : Finset KnotEdge := {((0, 0), (1, 0)), ((1, 0), (0, 0))}

/-- A 3×3 grid whose only live cells are the row of three at `y = 1`. -/
def blinker : CellMatrix :=
  ⟨3, 3, 1, [false, false, false, true, true, true, false, false, false]⟩

/-! Helper lemmas. -/

theorem roundQ_natCast (n : ℕ) : roundQ (n : ℚ) = n := by
  rw [roundQ, if_pos (by positivity)]
  rw [show ((n : ℚ) + 1 / 2) = (1 / 2 : ℚ) + (n : ℤ) by push_cast; ring]
  rw [Int.floor_add_int]
  norm_num

theorem toU16_natCast (n : ℕ) (h : n < 65536) : toU16 (n : ℤ) = n := by
  rw [toU16]; omega

theorem roundQ_eval_nonneg (q : ℚ) (z : ℤ) (h0 : 0 ≤ q) (h : ⌊q + 1 / 2⌋ = z) :
    roundQ q = z := by
  rw [roundQ, if_pos h0, h]

theorem roundQ_eval_neg (q : ℚ) (z : ℤ) (h0 : ¬ 0 ≤ q) (h : ⌈q - 1 / 2⌉ = z) :
    roundQ q = z := by
  rw [roundQ, if_neg h0, h]

theorem nec_16_17 : nearestEdgeToClick 16 (16, 17) = ((0, 1), (0, 3)) := by
  have hyft : clickYFt 16 (16, 17) = 17 / 16 := by rw [clickYFt]; norm_num
  have hy1 : clickY1 16 (16, 17) = 1 := by
    rw [clickY1, hyft, roundQ_eval_nonneg (17 / 16) 1 (by norm_num) (by norm_num)]; decide
  have hxft : clickXFt 16 (16, 17) = 0 := by
    rw [clickXFt, hy1]; norm_num
  have hx1 : clickX1 16 (16, 17) = 0 := by
    rw [clickX1, hxft, roundQ_eval_nonneg 0 0 (by norm_num) (by norm_num)]; decide
  have hxd : clickXDist 16 (16, 17) = 0 := by rw [clickXDist, hxft, hx1]; norm_num
  have hyd : clickYDist 16 (16, 17) = 1 / 16 := by rw [clickYDist, hyft, hy1]; norm_num
  rw [nearestEdgeToClick, clickSecondNode, hxd, hyd, hx1, hy1]
  rw [if_neg (by norm_num : ¬ (1 / 16 : ℚ) ≤ 0), if_pos (by norm_num : (0 : ℚ) ≤ 1 / 16)]
  decide

theorem nec_4_32 : nearestEdgeToClick 16 (4, 32) = ((0, 2), (1, 2)) := by
  have hyft : clickYFt 16 (4, 32) = 2 := by rw [clickYFt]; norm_num
  have hy1 : clickY1 16 (4, 32) = 2 := by
    rw [clickY1, hyft, roundQ_eval_nonneg 2 2 (by norm_num) (by norm_num)]; decide
  have hxft : clickXFt 16 (4, 32) = 1 / 8 := by
    rw [clickXFt, hy1]; norm_num
  have hx1 : clickX1 16 (4, 32) = 0 := by
    rw [clickX1, hxft, roundQ_eval_nonneg (1 / 8) 0 (by norm_num) (by norm_num)]; decide
  have hxd : clickXDist 16 (4, 32) = 1 / 8 := by rw [clickXDist, hxft, hx1]; norm_num
  have hyd : clickYDist 16 (4, 32) = 0 := by rw [clickYDist, hyft, hy1]; norm_num
  rw [nearestEdgeToClick, clickSecondNode, hxd, hyd, hx1, hy1]
  rw [if_pos (by norm_num : (0 : ℚ) ≤ 1 / 8), if_pos (by norm_num : (0 : ℚ) ≤ 1 / 8)]
  decide

theorem nec_14_15 : nearestEdgeToClick 16 (14, 15) = ((0, 1), (0, 1)) := by
  have hyft : clickYFt 16 (14, 15) = 15 / 16 := by rw [clickYFt]; norm_num
  have hy1 : clickY1 16 (14, 15) = 1 := by
    rw [clickY1, hyft, roundQ_eval_nonneg (15 / 16) 1 (by norm_num) (by norm_num)]; decide
  have hxft : clickXFt 16 (14, 15) = -(1 / 16) := by
    rw [clickXFt, hy1]; norm_num
  have hx1 : clickX1 16 (14, 15) = 0 := by
    rw [clickX1, hxft,
      roundQ_eval_neg (-(1 / 16)) 0 (by norm_num)
        (by rw [show (-(1 / 16) - 1 / 2 : ℚ) = -(9 / 16) by norm_num]
            rw [Int.ceil_eq_iff]
            norm_num)]
    decide
  have hxd : clickXDist 16 (14, 15) = -(1 / 16) := by rw [clickXDist, hxft, hx1]; norm_num
  have hyd : clickYDist 16 (14, 15) = -(1 / 16) := by rw [clickYDist, hyft, hy1]; norm_num
  rw [nearestEdgeToClick, clickSecondNode, hxd, hyd, hx1, hy1]
  rw [if_pos (le_refl (-(1 / 16) : ℚ)), if_neg (by norm_num : ¬ (0 : ℚ) ≤ -(1 / 16))]
  decide

theorem nec_38_15 : nearestEdgeToClick 16 (38, 15) = ((1, 1), (1, 0)) := by
  have hyft : clickYFt 16 (38, 15) = 15 / 16 := by rw [clickYFt]; norm_num
  have hy1 : clickY1 16 (38, 15) = 1 := by
    rw [clickY1, hyft, roundQ_eval_nonneg (15 / 16) 1 (by norm_num) (by norm_num)]; decide
  have hxft : clickXFt 16 (38, 15) = 11 / 16 := by
    rw [clickXFt, hy1]; norm_num
  have hx1 : clickX1 16 (38, 15) = 1 := by
    rw [clickX1, hxft, roundQ_eval_nonneg (11 / 16) 1 (by norm_num) (by norm_num)]; decide
  have hxd : clickXDist 16 (38, 15) = -(5 / 16) := by rw [clickXDist, hxft, hx1]; norm_num
  have hyd : clickYDist 16 (38, 15) = -(1 / 16) := by rw [clickYDist, hyft, hy1]; norm_num
  rw [nearestEdgeToClick, clickSecondNode, hxd, hyd, hx1, hy1]
  rw [if_neg (by norm_num : ¬ (-(1 / 16) : ℚ) ≤ -(5 / 16)),
    if_neg (by norm_num : ¬ (0 : ℚ) ≤ -(1 / 16))]
  decide

theorem xdist_38_17 : clickXDist 16 (38, 17) = -(5 / 16) := by
  have hyft : clickYFt 16 (38, 17) = 17 / 16 := by rw [clickYFt]; norm_num
  have hy1 : clickY1 16 (38, 17) = 1 := by
    rw [clickY1, hyft, roundQ_eval_nonneg (17 / 16) 1 (by norm_num) (by norm_num)]; decide
  have hxft : clickXFt 16 (38, 17) = 11 / 16 := by
    rw [clickXFt, hy1]; norm_num
  have hx1 : clickX1 16 (38, 17) = 1 := by
    rw [clickX1, hxft, roundQ_eval_nonneg (11 / 16) 1 (by norm_num) (by norm_num)]; decide
  rw [clickXDist, hxft, hx1]; norm_num

theorem ydist_38_17 : clickYDist 16 (38, 17) = 1 / 16 := by
  have hyft : clickYFt 16 (38, 17) = 17 / 16 := by rw [clickYFt]; norm_num
  have hy1 : clickY1 16 (38, 17) = 1 := by
    rw [clickY1, hyft, roundQ_eval_nonneg (17 / 16) 1 (by norm_num) (by norm_num)]; decide
  rw [clickYDist, hyft, hy1]; norm_num

theorem nec_38_17 : nearestEdgeToClick 16 (38, 17) = ((1, 1), (1, 3)) := by
  have hyft : clickYFt 16 (38, 17) = 17 / 16 := by rw [clickYFt]; norm_num
  have hy1 : clickY1 16 (38, 17) = 1 := by
    rw [clickY1, hyft, roundQ_eval_nonneg (17 / 16) 1 (by norm_num) (by norm_num)]; decide
  have hxft : clickXFt 16 (38, 17) = 11 / 16 := by
    rw [clickXFt, hy1]; norm_num
  have hx1 : clickX1 16 (38, 17) = 1 := by
    rw [clickX1, hxft, roundQ_eval_nonneg (11 / 16) 1 (by norm_num) (by norm_num)]; decide
  rw [nearestEdgeToClick, clickSecondNode, xdist_38_17, ydist_38_17, hx1, hy1]
  rw [if_neg (by norm_num : ¬ (1 / 16 : ℚ) ≤ -(5 / 16)),
    if_pos (by norm_num : (0 : ℚ) ≤ 1 / 16)]
  decide

theorem nec_200_200 : nearestEdgeToClick 16 (200, 200) = ((6, 13), (5, 13)) := by
  have hyft : clickYFt 16 (200, 200) = 25 / 2 := by rw [clickYFt]; norm_num
  have hy1 : clickY1 16 (200, 200) = 13 := by
    rw [clickY1, hyft, roundQ_eval_nonneg (25 / 2) 13 (by norm_num) (by norm_num)]; decide
  have hxft : clickXFt 16 (200, 200) = 23 / 4 := by
    rw [clickXFt, hy1]; norm_num
  have hx1 : clickX1 16 (200, 200) = 6 := by
    rw [clickX1, hxft, roundQ_eval_nonneg (23 / 4) 6 (by norm_num) (by norm_num)]; decide
  have hxd : clickXDist 16 (200, 200) = -(1 / 4) := by rw [clickXDist, hxft, hx1]; norm_num
  have hyd : clickYDist 16 (200, 200) = -(1 / 2) := by rw [clickYDist, hyft, hy1]; norm_num
  rw [nearestEdgeToClick, clickSecondNode, hxd, hyd, hx1, hy1]
  rw [if_pos (by norm_num : (-(1 / 2) : ℚ) ≤ -(1 / 4)),
    if_neg (by norm_num : ¬ (0 : ℚ) ≤ -(1 / 4))]
  decide

theorem flipEdgePair_ne (S : Finset KnotEdge) (p : KnotEdge) : flipEdgePair S p ≠ S := by
  by_cases hp : p ∈ S
  · simp only [flipEdgePair, if_pos hp]
    intro he
    have hmem : p ∈ (S.erase p).erase (p.2, p.1) := he.symm ▸ hp
    simp [Finset.mem_erase] at hmem
  · simp only [flipEdgePair, if_neg hp]
    intro he
    exact hp (he ▸ Finset.mem_insert_of_mem (Finset.mem_insert_self p S))

theorem edgeSym_flipEdgePair (S : Finset KnotEdge) (p : KnotEdge) (hsym : EdgeSym S) :
    EdgeSym (flipEdgePair S p) := by
  intro q hq
  by_cases hp : p ∈ S
  · simp only [flipEdgePair, if_pos hp, Finset.mem_erase] at hq ⊢
    obtain ⟨h1, h2, h3⟩ := hq
    refine ⟨?_, ?_, hsym q h3⟩
    · intro h
      apply h2
      rw [Prod.ext_iff] at h ⊢
      exact ⟨h.2, h.1⟩
    · intro h
      apply h1
      rw [Prod.ext_iff] at h ⊢
      exact ⟨h.2, h.1⟩
  · simp only [flipEdgePair, if_neg hp, Finset.mem_insert] at hq ⊢
    rcases hq with h | h | h
    · right; left
      rw [h]
    · left
      rw [h]
    · right; right
      exact hsym q h

/-! Claim theorems. -/

/-- C1: every classification tuple among the 36 valid combinations (those in
which neither cut is `Cross`, out of the 4×4×2×2 = 64 tuples) is mapped by
`draw_expr_for_tile` to a defined `(glyph, rotation, mirror)` triple and
never to the fallback error block. -/
theorem resolver_total_on_nonCross_tuples (b t : Cut) (ro co : Offset)
    (hb : b ≠ Cut.Cross) (ht : t ≠ Cut.Cross) :
    (drawExprForTile ⟨b, t, ro, co⟩).isSome = true := by
  exact (by decide :
    ∀ (b t : Cut) (ro co : Offset), b ≠ Cut.Cross → t ≠ Cut.Cross →
      (drawExprForTile ⟨b, t, ro, co⟩).isSome = true) b t ro co hb ht

/-- Witness for C1 at the concrete tuple `(Open, Open, Even, Even)`. -/
theorem resolver_total_on_nonCross_tuples_witness :
    (Cut.Open ≠ Cut.Cross ∧ Cut.Open ≠ Cut.Cross)
    ∧ (drawExprForTile ⟨Cut.Open, Cut.Open, Offset.Even, Offset.Even⟩).isSome = true :=
  ⟨⟨by decide, by decide⟩,
    resolver_total_on_nonCross_tuples Cut.Open Cut.Open Offset.Even Offset.Even
      (by decide) (by decide)⟩

/-- C2 counterexample: the click `(200, 200)` lies strictly outside the
rendered bounds of a 4×4-tile grid at tile size 16 (64×64 pixels), yet
`flip_edge` mutates the empty Connection Graph: an edge is inserted. -/
theorem outside_click_mutates_graph_cex :
    ((4 * 16 : ℚ) < 200 ∧ (4 * 16 : ℚ) < 200)
    ∧ flipEdge 16 (∅ : Finset KnotEdge) (200, 200) ≠ ∅ := by
  constructor
  · constructor <;> norm_num
  · simp only [flipEdge, nec_200_200]
    decide

/-- C2 amended: `flip_edge` performs no bounds check, so a click strictly
outside the rendered grid bounds still toggles an edge and always mutates
the Connection Graph. -/
theorem flip_edge_outside_click_mutates (w h ts : ℕ) (S : Finset KnotEdge) (pos : ℚ × ℚ)
    (hout : ((w : ℚ) * ts < pos.1 ∨ (h : ℚ) * ts < pos.2)) :
    flipEdge ts S pos ≠ S := by
  unfold flipEdge
  exact flipEdgePair_ne S _

/-- Witness for the amended C2 at a 4×4 grid, tile size 16, click (200, 200). -/
theorem flip_edge_outside_click_mutates_witness :
    ((4 : ℕ) : ℚ) * ((16 : ℕ) : ℚ) < ((200 : ℚ), (200 : ℚ)).1
    ∧ flipEdge 16 (∅ : Finset KnotEdge) ((200 : ℚ), (200 : ℚ)) ≠ ∅ :=
  ⟨by norm_num,
    flip_edge_outside_click_mutates 4 4 16 ∅ ((200 : ℚ), (200 : ℚ))
      (Or.inl (by norm_num))⟩

/-- C3 counterexample: at tile size 16 and click `(38, 17)` the fractional
remainders are `x_dist = -5/16` and `y_dist = 1/16`, so `|x_dist| ≥ |y_dist|`
— the claim then requires the horizontal neighbor (same row) — yet the code
picks the vertical neighbor: the second node's row differs from the first
node's row. -/
theorem tie_break_absolute_comparison_cex :
    |clickXDist 16 (38, 17)| ≥ |clickYDist 16 (38, 17)|
    ∧ ((nearestEdgeToClick 16 (38, 17)).2).2 ≠ ((nearestEdgeToClick 16 (38, 17)).1).2 := by
  constructor
  · rw [xdist_38_17, ydist_38_17]
    rw [abs_of_nonpos (by norm_num), abs_of_nonneg (by norm_num)]
    norm_num
  · rw [nec_38_17]
    decide

/-- C3 amended: the second node is the horizontal neighbor (same row,
adjacent column, stepped by the sign of `x_dist` and clamped at 0) exactly
when `x_dist ≥ y_dist` as a signed comparison, and otherwise the vertical
neighbor (same reduced column, two rows apart in the sign of `y_dist`,
clamped at 0); the comparison is not between absolute values. Stated for
node indices below the `i16` range, where the intermediate casts are
lossless. -/
theorem second_node_signed_tie_break (ts : ℕ) (pos : ℚ × ℚ)
    (hx : clickX1 ts pos < 32767) (hy : clickY1 ts pos < 32766) :
    clickSecondNode ts pos =
      if clickYDist ts pos ≤ clickXDist ts pos then specHorizontalNeighbor ts pos
      else specVerticalNeighbor ts pos := by
  have hx8 : clickX1 ts pos < 32768 := by omega
  have hy8 : clickY1 ts pos < 32768 := by omega
  rw [clickSecondNode, specHorizontalNeighbor, specVerticalNeighbor]
  split_ifs <;> simp only [Prod.mk.injEq] <;>
    refine ⟨?_, ?_⟩ <;>
      first
        | trivial
        | (rw [i16ofU16, if_pos hx8, addI16]; omega)
        | (rw [i16ofU16, if_pos hy8, addI16]; omega)

/-- Witness for the amended C3 at tile size 16 and click `(4, 32)`. -/
theorem second_node_signed_tie_break_witness :
    (clickX1 16 ((4 : ℚ), (32 : ℚ)) < 32767 ∧ clickY1 16 ((4 : ℚ), (32 : ℚ)) < 32766)
    ∧ clickSecondNode 16 ((4 : ℚ), (32 : ℚ)) =
        if clickYDist 16 ((4 : ℚ), (32 : ℚ)) ≤ clickXDist 16 ((4 : ℚ), (32 : ℚ)) then
          specHorizontalNeighbor 16 ((4 : ℚ), (32 : ℚ))
        else specVerticalNeighbor 16 ((4 : ℚ), (32 : ℚ)) := by
  have hx1 : clickX1 16 ((4 : ℚ), (32 : ℚ)) = 0 := congrArg (fun r => r.1.1) nec_4_32
  have hy1 : clickY1 16 ((4 : ℚ), (32 : ℚ)) = 2 := congrArg (fun r => r.1.2) nec_4_32
  refine ⟨⟨by rw [hx1]; norm_num, by rw [hy1]; norm_num⟩, ?_⟩
  exact second_node_signed_tie_break 16 ((4 : ℚ), (32 : ℚ))
    (by rw [hx1]; norm_num) (by rw [hy1]; norm_num)

/-- C4: for node coordinates that fit the visible grid (no `u16` overflow in
the screen position), mapping a node to its screen position with
`loc_for_node` and back through the nearest-node computation of
`nearest_edge_to_click` returns exactly the original node. -/
theorem node_screen_roundtrip (ts x y : ℕ) (hts : 0 < ts) (hts2 : ts * 2 < 65536)
    (hy : y * ts < 65536) (hx : ts + x * ts * 2 < 65536) :
    (nearestEdgeToClick ts (locForNode ts x y)).1 = (x, y) := by
  have htsQ : ((ts : ℚ)) ≠ 0 := Nat.cast_ne_zero.mpr hts.ne'
  have hylt : y < 65536 := by
    have : y ≤ y * ts := Nat.le_mul_of_pos_right y hts
    omega
  have hxlt : x < 65536 := by
    have : x ≤ x * ts * 2 := by
      have h1 : x ≤ x * ts := Nat.le_mul_of_pos_right x hts
      omega
    omega
  have hyv : (locForNode ts x y).2 = ((y * ts : ℕ) : ℚ) := by
    rw [locForNode]
    split_ifs <;> simp [Nat.mod_eq_of_lt hy]
  have hyft : clickYFt ts (locForNode ts x y) = (y : ℚ) := by
    rw [clickYFt, hyv]
    push_cast
    exact mul_div_cancel_right₀ _ htsQ
  have hy1 : clickY1 ts (locForNode ts x y) = y := by
    rw [clickY1, hyft, roundQ_natCast, toU16_natCast y hylt]
  have hdivisor : ((ts * 2 % 65536 : ℕ) : ℚ) = ((ts : ℚ) * 2) := by
    rw [Nat.mod_eq_of_lt hts2]
    push_cast
    ring
  have hts2Q : ((ts : ℚ) * 2) ≠ 0 := by positivity
  have hx1 : clickX1 ts (locForNode ts x y) = x := by
    have hxft : clickXFt ts (locForNode ts x y) = (x : ℚ) := by
      rcases Nat.even_or_odd y with he | ho
      · have hy2 : y % 2 = 0 := Nat.even_iff.mp he
        have hxv : (locForNode ts x y).1 = ((x * ts * 2 : ℕ) : ℚ) := by
          rw [locForNode, if_pos hy2]
          simp [Nat.mod_eq_of_lt (by omega : x * ts * 2 < 65536)]
        rw [clickXFt, if_pos (by rw [hy1]; exact hy2), hxv, hdivisor]
        push_cast
        rw [mul_assoc]
        exact mul_div_cancel_right₀ _ hts2Q
      · have hy2 : ¬ y % 2 = 0 := by
          have := Nat.odd_iff.mp ho
          omega
        have hxv : (locForNode ts x y).1 = ((ts + x * ts * 2 : ℕ) : ℚ) := by
          rw [locForNode, if_neg hy2]
          simp [Nat.mod_eq_of_lt hx]
        rw [clickXFt, if_neg (by rw [hy1]; exact hy2), hxv, hdivisor]
        push_cast
        rw [add_sub_cancel_left, mul_assoc]
        exact mul_div_cancel_right₀ _ hts2Q
    rw [clickX1, hxft, roundQ_natCast, toU16_natCast x hxlt]
  rw [nearestEdgeToClick, hx1, hy1]

/-- Witness for C4 at tile size 16 and node `(3, 5)`. -/
theorem node_screen_roundtrip_witness :
    (0 < 16 ∧ 16 * 2 < 65536 ∧ 5 * 16 < 65536 ∧ 16 + 3 * 16 * 2 < 65536)
    ∧ (nearestEdgeToClick 16 (locForNode 16 3 5)).1 = (3, 5) :=
  ⟨by norm_num,
    node_screen_roundtrip 16 3 5 (by norm_num) (by norm_num) (by norm_num) (by norm_num)⟩

/-- C5 counterexample: on an edge set that records only the reverse ordering
`((1,0),(0,0))` of the connection between the lattice-adjacent nodes
`A = (0,0)` and `B = (1,0)`, the connection is initially present (in one
order), yet after toggling `{A, B}` twice it is absent in both orders: the
prior membership state is not restored, because `flip_edge` tests
containment in only one ordering. -/
theorem toggle_restore_fails_on_asymmetric_cex :
    ((((0, 0), (1, 0)) : KnotEdge) ∈ asymEdges ∨ (((1, 0), (0, 0)) : KnotEdge) ∈ asymEdges)
    ∧ ¬ ((((0, 0), (1, 0)) : KnotEdge)
          ∈ flipEdgePair (flipEdgePair asymEdges ((0, 0), (1, 0))) ((0, 0), (1, 0))
        ∨ (((1, 0), (0, 0)) : KnotEdge)
          ∈ flipEdgePair (flipEdgePair asymEdges ((0, 0), (1, 0))) ((0, 0), (1, 0))) := by
  decide

/-- C5 amended: on any edge set satisfying the order-independence invariant
(which holds in every reachable state), toggling the connection `{A, B}`
makes membership of `(A, B)` and `(B, A)` agree, and toggling a second time
restores the edge set exactly. -/
theorem toggle_agree_and_restore_on_symmetric (S : Finset KnotEdge) (a b : Node)
    (hsym : EdgeSym S) :
    ((((a, b) : KnotEdge) ∈ flipEdgePair S (a, b) ↔ (((b, a) : KnotEdge) ∈ flipEdgePair S (a, b)))
      ∧ flipEdgePair (flipEdgePair S (a, b)) (a, b) = S) := by
  by_cases hp : ((a, b) : KnotEdge) ∈ S
  · have hr : ((b, a) : KnotEdge) ∈ S := hsym (a, b) hp
    constructor
    · simp [flipEdgePair, hp, Finset.mem_erase]
    · have h1 : flipEdgePair S (a, b) = (S.erase (a, b)).erase (b, a) := by
        simp [flipEdgePair, hp]
      have h2 : ((a, b) : KnotEdge) ∉ (S.erase (a, b)).erase (b, a) := by
        simp [Finset.mem_erase]
      rw [h1]
      rw [show flipEdgePair ((S.erase (a, b)).erase (b, a)) (a, b)
            = insert ((b, a) : KnotEdge) (insert (a, b) ((S.erase (a, b)).erase (b, a)))
          from by simp [flipEdgePair, h2]]
      ext q
      simp only [Finset.mem_insert, Finset.mem_erase]
      constructor
      · rintro (h | h | ⟨h3, h4, h5⟩)
        · exact h ▸ hr
        · exact h ▸ hp
        · exact h5
      · intro hq
        by_cases e1 : q = ((b, a) : KnotEdge)
        · exact Or.inl e1
        · by_cases e2 : q = ((a, b) : KnotEdge)
          · exact Or.inr (Or.inl e2)
          · exact Or.inr (Or.inr ⟨e1, e2, hq⟩)
  · have hr : ((b, a) : KnotEdge) ∉ S := fun h => hp (hsym (b, a) h)
    constructor
    · simp [flipEdgePair, hp]
    · have h1 : flipEdgePair S (a, b) = insert ((b, a) : KnotEdge) (insert (a, b) S) := by
        simp [flipEdgePair, hp]
      have h2 : ((a, b) : KnotEdge) ∈ insert ((b, a) : KnotEdge) (insert (a, b) S) := by
        simp
      rw [h1]
      rw [show flipEdgePair (insert ((b, a) : KnotEdge) (insert (a, b) S)) (a, b)
            = ((insert ((b, a) : KnotEdge) (insert (a, b) S)).erase (a, b)).erase (b, a)
          from by simp [flipEdgePair, h2]]
      ext q
      simp only [Finset.mem_erase, Finset.mem_insert]
      constructor
      · rintro ⟨n1, n2, (h | h | h)⟩
        · exact absurd h n1
        · exact absurd h n2
        · exact h
      · intro hq
        refine ⟨?_, ?_, Or.inr (Or.inr hq)⟩
        · rintro rfl
          exact hr hq
        · rintro rfl
          exact hp hq

/-- Witness for the amended C5 on a symmetric one-connection edge set. -/
theorem toggle_agree_and_restore_on_symmetric_witness :
    EdgeSym symDemoEdges
    ∧ flipEdgePair (flipEdgePair symDemoEdges ((0, 0), (1, 0))) ((0, 0), (1, 0))
        = symDemoEdges :=
  ⟨by decide,
    (toggle_agree_and_restore_on_symmetric symDemoEdges (0, 0) (1, 0) (by decide)).2⟩

/-- C6: the order-independence invariant holds for the initial empty edge
set, is preserved by every `flip_edge` operation, and therefore holds in
every reachable state. -/
theorem edge_symmetry_invariant :
    EdgeSym (∅ : Finset KnotEdge)
    ∧ (∀ (ts : ℕ) (S : Finset KnotEdge) (pos : ℚ × ℚ), EdgeSym S → EdgeSym (flipEdge ts S pos))
    ∧ ∀ (ts : ℕ) (S : Finset KnotEdge), Reachable ts S → EdgeSym S := by
  refine ⟨?_, ?_, ?_⟩
  · intro p hp
    simp at hp
  · intro ts S pos h
    exact edgeSym_flipEdgePair S _ h
  · intro ts S h
    induction h with
    | init =>
        intro p hp
        simp at hp
    | flip S0 pos h0 ih => exact edgeSym_flipEdgePair S0 _ ih

/-- Witness for C6 on the reachable edge set produced by one click. -/
theorem edge_symmetry_invariant_witness :
    EdgeSym (flipEdge 16 (∅ : Finset KnotEdge) ((16 : ℚ), (17 : ℚ))) :=
  edge_symmetry_invariant.2.2 16 _ (Reachable.flip ∅ ((16 : ℚ), (17 : ℚ)) Reachable.init)

/-- C7: for every tile coordinate, parity pair, cut position and edge set,
the cut computed by `cut_for_tile` equals the reduction of the presence
booleans of its two candidate connections: both present gives `Cross`, only
the vertical one `Vertical`, only the horizontal one `Horizontal`, neither
`Open`. -/
theorem cut_is_reduction_of_candidates (S : Finset KnotEdge) (x y : ℕ) (ro co : Offset)
    (is_bottom : Bool) :
    cutForTile S x y ro co is_bottom
      = cutOfPresence (decide (vertCandidate x y ro co is_bottom ∈ S))
          (decide (horiCandidate x y ro co is_bottom ∈ S)) := by
  have hred : ∀ v h : Bool, cutReduce (v, h) = cutOfPresence v h := by decide
  cases is_bottom <;> cases ro <;> cases co <;>
    simp only [cutForTile, vertCandidate, horiCandidate] <;>
    exact hred _ _

/-- C8: one `step()` of the 3×3 blinker (live row at `y = 1`) leaves exactly
the column `(1,0)`, `(1,1)`, `(1,2)` alive and every other cell dead. -/
theorem blinker_oscillates_one_step :
    CellMatrix.step blinker
      = ⟨3, 3, 1, [false, true, false, false, true, false, false, true, false]⟩ := by
  decide

/-- C9: near the lattice boundary the `max(0, ...)` clamp makes
`nearest_edge_to_click` return degenerate, non-lattice-adjacent pairs: at
tile size 16, click `(14, 15)` yields the self-loop `((0,1), (0,1))` at
column 0, and click `(38, 15)` yields `((1,1), (1,0))`, whose rows differ by
one instead of two; `flip_edge` then inserts these pairs into the edge set. -/
theorem boundary_clamp_degenerate_pairs :
    (nearestEdgeToClick 16 (14, 15) = ((0, 1), (0, 1))
      ∧ (((0, 1), (0, 1)) : KnotEdge) ∈ flipEdge 16 ∅ (14, 15))
    ∧ (nearestEdgeToClick 16 (38, 15) = ((1, 1), (1, 0))
      ∧ (((1, 1), (1, 0)) : KnotEdge) ∈ flipEdge 16 ∅ (38, 15)) := by
  refine ⟨⟨nec_14_15, ?_⟩, nec_38_15, ?_⟩
  · simp only [flipEdge, nec_14_15]
    decide
  · simp only [flipEdge, nec_38_15]
    decide

/-- C10: every classification tuple with a `Cross` cut (in either position)
resolves to the fallback error block, and such tuples are reachable: the
classifier produces a `Cross` bottom cut for tile `(0, 1)` on the edge set
built by two user `flip_edge` clicks. -/
theorem cross_cut_hits_fallback :
    (∀ (t : Cut) (ro co : Offset), drawExprForTile ⟨Cut.Cross, t, ro, co⟩ = none)
    ∧ (∀ (b : Cut) (ro co : Offset), drawExprForTile ⟨b, Cut.Cross, ro, co⟩ = none)
    ∧ demoEdges = flipEdge 16 (flipEdge 16 ∅ ((16 : ℚ), (17 : ℚ))) ((4 : ℚ), (32 : ℚ))
    ∧ tileForPos demoEdges 0 1 = ⟨Cut.Cross, Cut.Open, Offset.Odd, Offset.Even⟩
    ∧ drawExprForTile (tileForPos demoEdges 0 1) = none := by
  have e1 : flipEdge 16 ∅ ((16 : ℚ), (17 : ℚ)) = flipEdgePair ∅ ((0, 1), (0, 3)) := by
    simp only [flipEdge, nec_16_17]
    decide
  have e2 : flipEdge 16 (flipEdgePair ∅ ((0, 1), (0, 3))) ((4 : ℚ), (32 : ℚ)) = demoEdges := by
    simp only [flipEdge, nec_4_32]
    decide
  refine ⟨by decide, by decide, ?_, by decide, by decide⟩
  rw [e1, e2]

end Conbhuide
